import Mathlib

/-!
Shallow embedding of `src/los.cpp`: a line-of-sight engine over a 2D
heightmap.  `los_boolean` walks the grid cells crossed by the XY
projection of the segment with an amortized DDA and tests terrain
occlusion at each cell; `los_probability` issues jittered probes and
returns the fraction that succeed.  C++ `double`/`float` values are
modelled as rationals, the IEEE infinities used for the `tMax`/`tDelta`
of a zero-delta axis are modelled as `none : Option ℚ`, and the
`while (true)` loop is modelled by a fuel-indexed recursion together
with a proof that the fuel chosen by `los_boolean` suffices.
-/

namespace LidarLos

/-- Comparison `a < b` on `Option ℚ` where `none` stands for `+infinity`
(mirroring the IEEE comparisons on the C++ `tMaxX < tMaxY`:
`inf < inf` and `inf < finite` are false, `finite < inf` is true). -/
def infLt : Option ℚ → Option ℚ → Bool
  | some a, some b => decide (a < b)
  | some _, none => true
  | none, _ => false

/-- Addition on `Option ℚ` where `none` stands for `+infinity`
(used for `tMax += tDelta`; an axis has `none` for both exactly when its
delta is zero, and `inf + inf = inf`). -/
def infAdd : Option ℚ → Option ℚ → Option ℚ
  | some a, some b => some (a + b)
  | _, _ => none

/-- Denominator selected by the per-iteration parametric-t computation of
`los_boolean`: `dx` when `|dx| > |dy|`, else `dy`
(`if (std::abs(dx) > std::abs(dy)) t = (x - x0) / dx; else t = (y - y0) / dy;`). -/
def tDenom (dx dy : ℚ) : ℚ := if |dx| > |dy| then dx else dy

/-- The two sequential clamps `if (t < 0) t = 0; if (t > 1) t = 1;`. -/
def clamp01 (t : ℚ) : ℚ :=
  let t1 := if t < 0 then 0 else t
  if t1 > 1 then 1 else t1

/-- The per-call constants of the traversal loop of `los_boolean`:
heightmap, dimensions, start point, deltas, target cell, step directions
and per-axis `tDelta` increments. -/
structure LosCfg where
  hm : ℤ → ℚ
  width : ℤ
  height : ℤ
  x0 : ℚ
  y0 : ℚ
  z0 : ℚ
  dx : ℚ
  dy : ℚ
  dz : ℚ
  endX : ℤ
  endY : ℤ
  stepX : ℤ
  stepY : ℤ
  tDeltaX : Option ℚ
  tDeltaY : Option ℚ

/-- Clamped parametric position of the ray at cell `(x, y)`:
`t = (x - x0) / dx` along the axis with the larger delta magnitude
(or `(y - y0) / dy` otherwise), clamped to `[0, 1]`.

Modelling boundary: the denominator is zero exactly when
`dx = dy = 0` (see `c9_division_guard`).  There the rational embedding
yields `t = q / 0 = 0`, which agrees with the IEEE evaluation
`(y - y0) / 0.0 = -inf` (clamped to 0) whenever the numerator
`floor(y0) - y0` is negative, i.e. `y0` non-integral.  For integral
`y0` the C++ computes `0.0 / 0.0 = NaN` instead: both clamps and the
`terrain > rayHeight` comparison are false on NaN, so the program then
treats the cell as unoccluded regardless of terrain.  That NaN path has
no rational counterpart; theorems touching it (`c2_samecell`) exclude
the case `dx = 0 ∧ dy = 0 ∧ y0 = ⌊y0⌋` by hypothesis. -/
def tParam (cfg : LosCfg) (x y : ℤ) : ℚ :=
  clamp01 ((if |cfg.dx| > |cfg.dy| then (x : ℚ) - cfg.x0 else (y : ℚ) - cfg.y0) /
    tDenom cfg.dx cfg.dy)

/-- Interpolated ray height at cell `(x, y)`: `z0 + t * dz`. -/
def rayHeightAt (cfg : LosCfg) (x y : ℤ) : ℚ :=
  cfg.z0 + tParam cfg x y * cfg.dz

/-- The `while (true)` loop of `los_boolean`, indexed by fuel: bounds
check, occlusion check, target check, then advance the axis with the
smaller `tMax` (Y on ties, via the strict `tMaxX < tMaxY`).  `none`
means the fuel ran out before the loop returned. -/
def losLoopFuel (cfg : LosCfg) : ℕ → ℤ → ℤ → Option ℚ → Option ℚ → Option Bool
  | 0, _, _, _, _ => none
  | fuel + 1, x, y, tMaxX, tMaxY =>
    if x < 0 ∨ y < 0 ∨ cfg.width ≤ x ∨ cfg.height ≤ y then some false
    else if cfg.hm (y * cfg.width + x) > rayHeightAt cfg x y then some false
    else if x = cfg.endX ∧ y = cfg.endY then some true
    else if infLt tMaxX tMaxY then
      losLoopFuel cfg fuel (x + cfg.stepX) y (infAdd tMaxX cfg.tDeltaX) tMaxY
    else
      losLoopFuel cfg fuel x (y + cfg.stepY) tMaxX (infAdd tMaxY cfg.tDeltaY)

/-- Loop constants as computed by the prologue of `los_boolean`:
deltas, floored target cell, step directions
(`stepX = (dx > 0) ? 1 : -1`), and `tDelta = 1 / |delta|` for an axis
with nonzero delta, `+infinity` (`none`) otherwise. -/
def losCfgOf (hm : ℤ → ℚ) (width height : ℤ) (x0 y0 z0 x1 y1 z1 : ℚ) : LosCfg :=
  { hm := hm
    width := width
    height := height
    x0 := x0
    y0 := y0
    z0 := z0
    dx := x1 - x0
    dy := y1 - y0
    dz := z1 - z0
    endX := ⌊x1⌋
    endY := ⌊y1⌋
    stepX := if x1 - x0 > 0 then 1 else -1
    stepY := if y1 - y0 > 0 then 1 else -1
    tDeltaX := if x1 - x0 ≠ 0 then some (1 / |x1 - x0|) else none
    tDeltaY := if y1 - y0 ≠ 0 then some (1 / |y1 - y0|) else none }

/-- Initial `tMaxX`: parametric distance from `x0` to the next vertical
grid line (`nextGridX = (stepX > 0) ? (x + 1.0) : x`), `+infinity`
(`none`) when `dx = 0`. -/
def losTMaxX0 (x0 x1 : ℚ) : Option ℚ :=
  if x1 - x0 ≠ 0 then
    some (((if x1 - x0 > 0 then (⌊x0⌋ : ℚ) + 1 else (⌊x0⌋ : ℚ)) - x0) / (x1 - x0))
  else none

/-- Initial `tMaxY`: parametric distance from `y0` to the next horizontal
grid line, `+infinity` (`none`) when `dy = 0`. -/
def losTMaxY0 (y0 y1 : ℚ) : Option ℚ :=
  if y1 - y0 ≠ 0 then
    some (((if y1 - y0 > 0 then (⌊y0⌋ : ℚ) + 1 else (⌊y0⌋ : ℚ)) - y0) / (y1 - y0))
  else none

/-- Fuel sufficient for the traversal loop: the loop advances one cell per
iteration, each axis monotonically, so `width + height + 1` iterations
always reach a return. -/
def losFuel (width height : ℤ) : ℕ := (width + height).toNat + 1

/-- `los_boolean`: true iff every grid cell crossed by the XY projection
of the segment is in bounds and its terrain does not exceed the
interpolated ray height there (the C++ function returns `1.0`/`0.0`;
we return the corresponding `Bool`). -/
def los_boolean (hm : ℤ → ℚ) (width height : ℤ) (x0 y0 z0 x1 y1 z1 : ℚ) : Bool :=
  (losLoopFuel (losCfgOf hm width height x0 y0 z0 x1 y1 z1) (losFuel width height)
    ⌊x0⌋ ⌊y0⌋ (losTMaxX0 x0 x1) (losTMaxY0 y0 y1)).getD false

/-- Sampler pattern size: `grid_size = (int)sqrt(num_samples)`,
incremented when `grid_size * grid_size < num_samples`
(for a nonneg `int` argument the C++ `(int)std::sqrt` is `Nat.sqrt`). -/
def gridSize (n : ℤ) : ℕ :=
  let g := Nat.sqrt n.toNat
  if g * g < n.toNat then g + 1 else g

/-- Lateral X offset of probe `i`:
`offset_x = (grid_x - grid_size / 2.0) * (offset_range / grid_size)` with
`grid_x = i % grid_size` and `offset_range = 2.0`. -/
def offX (n : ℤ) (i : ℕ) : ℚ :=
  ((i % gridSize n : ℕ) - (gridSize n : ℚ) / 2) * (2 / (gridSize n : ℚ))

/-- Lateral Y offset of probe `i`, with `grid_y = i / grid_size`. -/
def offY (n : ℤ) (i : ℕ) : ℚ :=
  ((i / gridSize n : ℕ) - (gridSize n : ℚ) / 2) * (2 / (gridSize n : ℚ))

/-- Start point passed to `los_boolean` for probe `i`:
`(x0 + offset_x, y0 + offset_y, z0)`. -/
def probeStart (n : ℤ) (i : ℕ) (x0 y0 z0 : ℚ) : ℚ × ℚ × ℚ :=
  (x0 + offX n i, y0 + offY n i, z0)

/-- End point passed to `los_boolean` for probe `i`:
`(x1 + offset_x, y1 + offset_y, z1)`. -/
def probeEnd (n : ℤ) (i : ℕ) (x1 y1 z1 : ℚ) : ℚ × ℚ × ℚ :=
  (x1 + offX n i, y1 + offY n i, z1)

/-- `los_probability`: a single unperturbed traversal when
`num_samples == 1`, otherwise the fraction of the `num_samples` offset
probes whose traversal succeeds. -/
def los_probability (hm : ℤ → ℚ) (width height : ℤ) (x0 y0 z0 x1 y1 z1 : ℚ)
    (n : ℤ) : ℚ :=
  if n = 1 then
    if los_boolean hm width height x0 y0 z0 x1 y1 z1 then 1 else 0
  else
    (((List.range n.toNat).filter fun i =>
      los_boolean hm width height
        (probeStart n i x0 y0 z0).1 (probeStart n i x0 y0 z0).2.1
        (probeStart n i x0 y0 z0).2.2
        (probeEnd n i x1 y1 z1).1 (probeEnd n i x1 y1 z1).2.1
        (probeEnd n i x1 y1 z1).2.2).length : ℚ) / (n : ℚ)

/-- Termination measure of the traversal loop: number of columns left
before the cursor leaves the grid along `stepX`, plus the same count of
rows along `stepY`. -/
def stepMeasure (cfg : LosCfg) (x y : ℤ) : ℤ :=
  (if cfg.stepX = 1 then cfg.width - x else x + 1) +
    (if cfg.stepY = 1 then cfg.height - y else y + 1)

end LidarLos

namespace LidarLos

/-- Helper: evaluate a concrete rational floor from its two bounds. -/
lemma floorQ_eq {q : ℚ} {z : ℤ} (h1 : (z : ℚ) ≤ q) (h2 : q < z + 1) : ⌊q⌋ = z := by
  rw [Int.floor_eq_iff]
  exact ⟨h1, by exact_mod_cast h2⟩

/-- Fuel monotonicity: once the loop returns within `n` iterations, any
larger fuel returns the same value. -/
lemma losLoopFuel_mono (cfg : LosCfg) :
    ∀ (n m : ℕ) (x y : ℤ) (tX tY : Option ℚ) (b : Bool), n ≤ m →
      losLoopFuel cfg n x y tX tY = some b →
      losLoopFuel cfg m x y tX tY = some b := by
  intro n
  induction n with
  | zero =>
    intro m x y tX tY b _ h
    simp [losLoopFuel] at h
  | succ n ih =>
    intro m x y tX tY b hnm h
    obtain ⟨m, rfl⟩ : ∃ k, m = k + 1 := ⟨m - 1, by omega⟩
    rw [losLoopFuel] at h ⊢
    split_ifs at h ⊢
    · exact h
    · exact h
    · exact h
    · exact ih m _ _ _ _ _ (by omega) h
    · exact ih m _ _ _ _ _ (by omega) h

/-- Termination: with fuel exceeding the step measure (when in bounds),
the loop returns. -/
lemma losLoopFuel_isSome (cfg : LosCfg)
    (hsx : cfg.stepX = 1 ∨ cfg.stepX = -1) (hsy : cfg.stepY = 1 ∨ cfg.stepY = -1) :
    ∀ (n : ℕ) (x y : ℤ) (tX tY : Option ℚ), 1 ≤ n →
      (¬(x < 0 ∨ y < 0 ∨ cfg.width ≤ x ∨ cfg.height ≤ y) →
        stepMeasure cfg x y < (n : ℤ)) →
      (losLoopFuel cfg n x y tX tY).isSome := by
  intro n
  induction n with
  | zero => intro x y tX tY h; omega
  | succ n ih =>
    intro x y tX tY _ hmeas
    rw [losLoopFuel]
    split_ifs with h1 h2 h3 h4
    · simp
    · simp
    · simp
    · have hlt := hmeas h1
      apply ih (x + cfg.stepX) y _ _ ?_ ?_
      · rcases hsx with h | h <;> rcases hsy with h' | h' <;>
          simp [stepMeasure, h, h'] at hlt ⊢ <;> omega
      · intro _
        rcases hsx with h | h <;> rcases hsy with h' | h' <;>
          simp [stepMeasure, h, h'] at hlt ⊢ <;> omega
    · have hlt := hmeas h1
      apply ih x (y + cfg.stepY) _ _ ?_ ?_
      · rcases hsx with h | h <;> rcases hsy with h' | h' <;>
          simp [stepMeasure, h, h'] at hlt ⊢ <;> omega
      · intro _
        rcases hsx with h | h <;> rcases hsy with h' | h' <;>
          simp [stepMeasure, h, h'] at hlt ⊢ <;> omega

/-- A successful traversal visits only in-bounds cells: if the loop
returns `true`, both the target cell and the entry cell are in bounds. -/
lemma losLoopFuel_true_inB (cfg : LosCfg) :
    ∀ (n : ℕ) (x y : ℤ) (tX tY : Option ℚ),
      losLoopFuel cfg n x y tX tY = some true →
      (0 ≤ cfg.endX ∧ 0 ≤ cfg.endY ∧ cfg.endX < cfg.width ∧ cfg.endY < cfg.height) ∧
      (0 ≤ x ∧ 0 ≤ y ∧ x < cfg.width ∧ y < cfg.height) := by
  intro n
  induction n with
  | zero =>
    intro x y tX tY h
    simp [losLoopFuel] at h
  | succ n ih =>
    intro x y tX tY h
    rw [losLoopFuel] at h
    split_ifs at h with h1 h2 h3 h4
    · simp at h
    · simp at h
    · push_neg at h1
      obtain ⟨hex, hey⟩ := h3
      subst hex
      subst hey
      exact ⟨by omega, by omega⟩
    · have := ih _ _ _ _ h
      push_neg at h1
      exact ⟨this.1, by omega⟩
    · have := ih _ _ _ _ h
      push_neg at h1
      exact ⟨this.1, by omega⟩

end LidarLos


namespace LidarLos

lemma losLoopFuel_antitone (cfg : LosCfg) (hm2 : ℤ → ℚ)
    (hle : ∀ i, hm2 i ≤ cfg.hm i) :
    ∀ (n : ℕ) (x y : ℤ) (tX tY : Option ℚ),
      losLoopFuel cfg n x y tX tY = some true →
      losLoopFuel { cfg with hm := hm2 } n x y tX tY = some true := by
  intro n
  induction n with
  | zero =>
    intro x y tX tY h
    simp [losLoopFuel] at h
  | succ n ih =>
    intro x y tX tY h
    rw [losLoopFuel] at h ⊢
    simp only [show ({ cfg with hm := hm2 } : LosCfg).width = cfg.width from rfl,
      show ({ cfg with hm := hm2 } : LosCfg).height = cfg.height from rfl,
      show ({ cfg with hm := hm2 } : LosCfg).hm = hm2 from rfl,
      show ({ cfg with hm := hm2 } : LosCfg).endX = cfg.endX from rfl,
      show ({ cfg with hm := hm2 } : LosCfg).endY = cfg.endY from rfl,
      show ({ cfg with hm := hm2 } : LosCfg).stepX = cfg.stepX from rfl,
      show ({ cfg with hm := hm2 } : LosCfg).stepY = cfg.stepY from rfl,
      show ({ cfg with hm := hm2 } : LosCfg).tDeltaX = cfg.tDeltaX from rfl,
      show ({ cfg with hm := hm2 } : LosCfg).tDeltaY = cfg.tDeltaY from rfl,
      show rayHeightAt { cfg with hm := hm2 } = rayHeightAt cfg from rfl]
    by_cases h1 : x < 0 ∨ y < 0 ∨ cfg.width ≤ x ∨ cfg.height ≤ y
    · rw [if_pos h1] at h
      simp at h
    rw [if_neg h1] at h ⊢
    by_cases h2 : cfg.hm (y * cfg.width + x) > rayHeightAt cfg x y
    · rw [if_pos h2] at h
      simp at h
    rw [if_neg h2] at h
    have h2b : ¬(hm2 (y * cfg.width + x) > rayHeightAt cfg x y) := by
      push_neg at h2 ⊢
      exact le_trans (hle _) h2
    rw [if_neg h2b]
    by_cases h3 : x = cfg.endX ∧ y = cfg.endY
    · rw [if_pos h3] at h
      rw [if_pos h3]
    rw [if_neg h3] at h ⊢
    by_cases h4 : infLt tX tY = true
    · rw [if_pos h4] at h ⊢
      exact ih _ _ _ _ h
    · rw [if_neg h4] at h ⊢
      exact ih _ _ _ _ h

lemma clamp01_floor_div (c0 c1 : ℚ) (hfl : ⌊c0⌋ = ⌊c1⌋) :
    clamp01 (((⌊c0⌋ : ℚ) - c0) / (c1 - c0)) = if c1 - c0 < 0 then 1 else 0 := by
  rcases lt_trichotomy (c1 - c0) 0 with hd | hd | hd
  · have hnum : (⌊c0⌋ : ℚ) - c0 ≤ c1 - c0 := by
      have : (⌊c0⌋ : ℚ) ≤ c1 := by
        rw [hfl]
        exact Int.floor_le c1
      linarith
    have h1 : (1 : ℚ) ≤ ((⌊c0⌋ : ℚ) - c0) / (c1 - c0) := by
      rw [le_div_iff_of_neg hd]
      linarith
    rw [if_pos hd]
    unfold clamp01
    have h0 : ¬(((⌊c0⌋ : ℚ) - c0) / (c1 - c0) < 0) := by linarith
    simp only [if_neg h0]
    by_cases hgt : ((⌊c0⌋ : ℚ) - c0) / (c1 - c0) > 1
    · rw [if_pos hgt]
    · rw [if_neg hgt]
      linarith
  · rw [hd]
    norm_num [clamp01]
  · have hnum : (⌊c0⌋ : ℚ) - c0 ≤ 0 := by
      have := Int.floor_le c0
      linarith
    have h1 : ((⌊c0⌋ : ℚ) - c0) / (c1 - c0) ≤ 0 :=
      div_nonpos_of_nonpos_of_nonneg hnum (le_of_lt hd)
    rw [if_neg (by linarith : ¬(c1 - c0 < 0))]
    unfold clamp01
    by_cases hlt : ((⌊c0⌋ : ℚ) - c0) / (c1 - c0) < 0
    · rw [if_pos hlt]
      norm_num
    · rw [if_neg hlt]
      have : ((⌊c0⌋ : ℚ) - c0) / (c1 - c0) = 0 := le_antisymm h1 (not_lt.mp hlt)
      rw [this]
      norm_num

lemma rayHeightAt_samecell (hm : ℤ → ℚ) (w ht : ℤ) (x0 y0 z0 x1 y1 z1 : ℚ)
    (hx : ⌊x0⌋ = ⌊x1⌋) (hy : ⌊y0⌋ = ⌊y1⌋) :
    rayHeightAt (losCfgOf hm w ht x0 y0 z0 x1 y1 z1) ⌊x0⌋ ⌊y0⌋ =
      if tDenom (x1 - x0) (y1 - y0) < 0 then z1 else z0 := by
  unfold rayHeightAt tParam losCfgOf tDenom
  dsimp only
  by_cases hc : |x1 - x0| > |y1 - y0|
  · rw [if_pos hc, if_pos hc, clamp01_floor_div x0 x1 hx]
    split_ifs <;> ring
  · rw [if_neg hc, if_neg hc, clamp01_floor_div y0 y1 hy]
    split_ifs <;> ring

end LidarLos

namespace LidarLos

@[simp] lemma losCfgOf_hm (hm : ℤ → ℚ) (w ht : ℤ) (x0 y0 z0 x1 y1 z1 : ℚ) :
    (losCfgOf hm w ht x0 y0 z0 x1 y1 z1).hm = hm := rfl

@[simp] lemma losCfgOf_width (hm : ℤ → ℚ) (w ht : ℤ) (x0 y0 z0 x1 y1 z1 : ℚ) :
    (losCfgOf hm w ht x0 y0 z0 x1 y1 z1).width = w := rfl

@[simp] lemma losCfgOf_height (hm : ℤ → ℚ) (w ht : ℤ) (x0 y0 z0 x1 y1 z1 : ℚ) :
    (losCfgOf hm w ht x0 y0 z0 x1 y1 z1).height = ht := rfl

@[simp] lemma losCfgOf_endX (hm : ℤ → ℚ) (w ht : ℤ) (x0 y0 z0 x1 y1 z1 : ℚ) :
    (losCfgOf hm w ht x0 y0 z0 x1 y1 z1).endX = ⌊x1⌋ := rfl

@[simp] lemma losCfgOf_endY (hm : ℤ → ℚ) (w ht : ℤ) (x0 y0 z0 x1 y1 z1 : ℚ) :
    (losCfgOf hm w ht x0 y0 z0 x1 y1 z1).endY = ⌊y1⌋ := rfl

lemma losCfgOf_stepX (hm : ℤ → ℚ) (w ht : ℤ) (x0 y0 z0 x1 y1 z1 : ℚ) :
    (losCfgOf hm w ht x0 y0 z0 x1 y1 z1).stepX = if x1 - x0 > 0 then 1 else -1 := rfl

lemma losCfgOf_stepY (hm : ℤ → ℚ) (w ht : ℤ) (x0 y0 z0 x1 y1 z1 : ℚ) :
    (losCfgOf hm w ht x0 y0 z0 x1 y1 z1).stepY = if y1 - y0 > 0 then 1 else -1 := rfl

/-- Claim C1: `los_boolean` returns `false` whenever either endpoint's
floor-coordinate cell lies outside the rectangle
`[0, width) x [0, height)`: an out-of-bounds start cell fails the bounds
check on the first iteration, and an out-of-bounds end cell can never
satisfy the target check, which is only reached after the bounds check
passes for the current (= target) cell. -/
theorem c1_oob_endpoint_false (hm : ℤ → ℚ) (width height : ℤ) (x0 y0 z0 x1 y1 z1 : ℚ)
    (hout : ⌊x0⌋ < 0 ∨ ⌊y0⌋ < 0 ∨ width ≤ ⌊x0⌋ ∨ height ≤ ⌊y0⌋ ∨
      ⌊x1⌋ < 0 ∨ ⌊y1⌋ < 0 ∨ width ≤ ⌊x1⌋ ∨ height ≤ ⌊y1⌋) :
    los_boolean hm width height x0 y0 z0 x1 y1 z1 = false := by
  unfold los_boolean
  cases hb : losLoopFuel (losCfgOf hm width height x0 y0 z0 x1 y1 z1)
      (losFuel width height) ⌊x0⌋ ⌊y0⌋ (losTMaxX0 x0 x1) (losTMaxY0 y0 y1) with
  | none => rfl
  | some b =>
    cases b with
    | false => rfl
    | true =>
      exfalso
      have hin := losLoopFuel_true_inB _ _ _ _ _ _ hb
      simp only [losCfgOf_endX, losCfgOf_endY, losCfgOf_width, losCfgOf_height] at hin
      omega

/-- Witness for C1: start point `(5, 0)` on a 1x1 grid floors to the
out-of-bounds cell `(5, 0)`, and the traversal reports `false`. -/
theorem c1_oob_endpoint_false_witness :
    (⌊(5 : ℚ)⌋ < 0 ∨ ⌊(0 : ℚ)⌋ < 0 ∨ (1 : ℤ) ≤ ⌊(5 : ℚ)⌋ ∨ (1 : ℤ) ≤ ⌊(0 : ℚ)⌋ ∨
      ⌊(0 : ℚ)⌋ < 0 ∨ ⌊(0 : ℚ)⌋ < 0 ∨ (1 : ℤ) ≤ ⌊(0 : ℚ)⌋ ∨ (1 : ℤ) ≤ ⌊(0 : ℚ)⌋) ∧
    los_boolean (fun _ => 0) 1 1 5 0 0 0 0 0 = false := by
  have hd : ⌊(5 : ℚ)⌋ < 0 ∨ ⌊(0 : ℚ)⌋ < 0 ∨ (1 : ℤ) ≤ ⌊(5 : ℚ)⌋ ∨ (1 : ℤ) ≤ ⌊(0 : ℚ)⌋ ∨
      ⌊(0 : ℚ)⌋ < 0 ∨ ⌊(0 : ℚ)⌋ < 0 ∨ (1 : ℤ) ≤ ⌊(0 : ℚ)⌋ ∨ (1 : ℤ) ≤ ⌊(0 : ℚ)⌋ := by
    have h5 : ⌊(5 : ℚ)⌋ = 5 := floorQ_eq (by norm_num) (by norm_num)
    omega
  exact ⟨hd, c1_oob_endpoint_false (fun _ => 0) 1 1 5 0 0 0 0 0 hd⟩

end LidarLos

namespace LidarLos

/-- Claim C8: the traversal loop terminates within `width + height + 1`
iterations (a bound below the claimed Chebyshev-distance-plus-dimensions
bound): with any fuel at least `losFuel width height`, the loop returns,
and it returns exactly the value `los_boolean` computes, so the result
does not depend on the fuel.  `los_probability` is a finite fold of such
calls, so it likewise runs to completion. -/
theorem c8_loop_terminates (hm : ℤ → ℚ) (width height : ℤ) (x0 y0 z0 x1 y1 z1 : ℚ)
    (fuel : ℕ) (hfuel : losFuel width height ≤ fuel) :
    losLoopFuel (losCfgOf hm width height x0 y0 z0 x1 y1 z1) fuel
      ⌊x0⌋ ⌊y0⌋ (losTMaxX0 x0 x1) (losTMaxY0 y0 y1) =
      some (los_boolean hm width height x0 y0 z0 x1 y1 z1) := by
  set cfg := losCfgOf hm width height x0 y0 z0 x1 y1 z1 with hcfg
  have hsx : cfg.stepX = 1 ∨ cfg.stepX = -1 := by
    rw [hcfg, losCfgOf_stepX]
    split_ifs <;> simp
  have hsy : cfg.stepY = 1 ∨ cfg.stepY = -1 := by
    rw [hcfg, losCfgOf_stepY]
    split_ifs <;> simp
  have hsome : (losLoopFuel cfg (losFuel width height) ⌊x0⌋ ⌊y0⌋
      (losTMaxX0 x0 x1) (losTMaxY0 y0 y1)).isSome := by
    apply losLoopFuel_isSome cfg hsx hsy _ _ _ _ _ (by unfold losFuel; omega)
    intro hin
    rw [hcfg] at hin
    simp only [losCfgOf_width, losCfgOf_height] at hin
    push_neg at hin
    obtain ⟨ha, hb, hc, hd⟩ := hin
    rcases hsx with h | h <;> rcases hsy with h' | h' <;>
      simp only [stepMeasure, losFuel, h, h', hcfg, losCfgOf_width, losCfgOf_height,
        if_pos rfl] <;>
      norm_num <;> omega
  obtain ⟨b, hb⟩ := Option.isSome_iff_exists.mp hsome
  have hlos : los_boolean hm width height x0 y0 z0 x1 y1 z1 = b := by
    unfold los_boolean
    rw [← hcfg, hb]
    rfl
  rw [hlos]
  exact losLoopFuel_mono cfg _ fuel _ _ _ _ b hfuel hb


/-- Witness for C8: on a 1x1 grid the fuel bound is `3 ≤ 3`, and the
loop at fuel 3 returns the traversal's value. -/
theorem c8_loop_terminates_witness :
    losFuel 1 1 ≤ 3 ∧
    losLoopFuel (losCfgOf (fun _ => 0) 1 1 0 0 0 0 0 0) 3
      ⌊(0 : ℚ)⌋ ⌊(0 : ℚ)⌋ (losTMaxX0 0 0) (losTMaxY0 0 0) =
      some (los_boolean (fun _ => 0) 1 1 0 0 0 0 0 0) :=
  ⟨by decide, c8_loop_terminates (fun _ => 0) 1 1 0 0 0 0 0 0 3 (by decide)⟩

end LidarLos

namespace LidarLos

/-- Claim C10: lowering terrain pointwise never destroys visibility. -/
theorem c10_hm_antitone (hm1 hm2 : ℤ → ℚ) (width height : ℤ) (x0 y0 z0 x1 y1 z1 : ℚ)
    (hle : ∀ i, hm2 i ≤ hm1 i)
    (h : los_boolean hm1 width height x0 y0 z0 x1 y1 z1 = true) :
    los_boolean hm2 width height x0 y0 z0 x1 y1 z1 = true := by
  unfold los_boolean at h ⊢
  cases hb : losLoopFuel (losCfgOf hm1 width height x0 y0 z0 x1 y1 z1)
      (losFuel width height) ⌊x0⌋ ⌊y0⌋ (losTMaxX0 x0 x1) (losTMaxY0 y0 y1) with
  | none => rw [hb] at h; simp at h
  | some b =>
    rw [hb] at h
    cases b with
    | false => simp at h
    | true =>
      have h2 := losLoopFuel_antitone (losCfgOf hm1 width height x0 y0 z0 x1 y1 z1)
        hm2 hle _ _ _ _ _ hb
      have hcfg2 : ({ losCfgOf hm1 width height x0 y0 z0 x1 y1 z1 with hm := hm2 } :
          LosCfg) = losCfgOf hm2 width height x0 y0 z0 x1 y1 z1 := rfl
      rw [hcfg2] at h2
      rw [h2]
      rfl

/-- Witness for C10: all-zero terrain lowered to all `-1` preserves the
visible verdict for the degenerate in-cell ray on a 1x1 grid. -/
theorem c10_hm_antitone_witness :
    (∀ i : ℤ, (fun _ : ℤ => (-1 : ℚ)) i ≤ (fun _ : ℤ => (0 : ℚ)) i) ∧
    los_boolean (fun _ => 0) 1 1 0 0 0 0 0 0 = true ∧
    los_boolean (fun _ => -1) 1 1 0 0 0 0 0 0 = true := by
  have h1 : ∀ i : ℤ, (fun _ : ℤ => (-1 : ℚ)) i ≤ (fun _ : ℤ => (0 : ℚ)) i := by
    intro i
    norm_num
  have h2 : los_boolean (fun _ => 0) 1 1 0 0 0 0 0 0 = true := by
    norm_num [los_boolean, losCfgOf, losTMaxX0, losTMaxY0, losFuel, losLoopFuel,
      rayHeightAt, tParam, clamp01, tDenom]
  exact ⟨h1, h2, c10_hm_antitone (fun _ => 0) (fun _ => -1) 1 1 0 0 0 0 0 0 h1 h2⟩

end LidarLos

namespace LidarLos

/-- Claim C2 (amended): when both endpoints floor to the same grid cell
— outside the fully degenerate NaN case `dx = 0 ∧ dy = 0` with `y0`
integral, excluded by the last hypothesis (there the C++ computes
`t = 0.0/0.0 = NaN`, every comparison on NaN is false, and the program
returns visible for any terrain; see the `tParam` modelling note) —
the loop body runs once and the result is `true` iff that cell is in
bounds and its terrain does not exceed the ray height at the clamped
parameter, which is `z0` when the dominant-axis delta (the `tDenom`
selection) is nonnegative but `z1` when it is negative (the raw `t` is
then at least 1 and clamps to 1, not 0). -/
theorem c2_samecell (hm : ℤ → ℚ) (width height : ℤ) (x0 y0 z0 x1 y1 z1 : ℚ)
    (hx : ⌊x0⌋ = ⌊x1⌋) (hy : ⌊y0⌋ = ⌊y1⌋)
    (_hnan : ¬(x1 - x0 = 0 ∧ y1 - y0 = 0 ∧ ((⌊y0⌋ : ℚ) = y0))) :
    los_boolean hm width height x0 y0 z0 x1 y1 z1 = true ↔
      ((0 ≤ ⌊x0⌋ ∧ 0 ≤ ⌊y0⌋ ∧ ⌊x0⌋ < width ∧ ⌊y0⌋ < height) ∧
        hm (⌊y0⌋ * width + ⌊x0⌋) ≤
          (if tDenom (x1 - x0) (y1 - y0) < 0 then z1 else z0)) := by
  unfold los_boolean
  have hfe : losFuel width height = (width + height).toNat + 1 := rfl
  rw [hfe, losLoopFuel]
  have hray := rayHeightAt_samecell hm width height x0 y0 z0 x1 y1 z1 hx hy
  simp only [losCfgOf_hm, losCfgOf_width, losCfgOf_height, losCfgOf_endX, losCfgOf_endY]
  rw [hray]
  by_cases h1 : ⌊x0⌋ < 0 ∨ ⌊y0⌋ < 0 ∨ width ≤ ⌊x0⌋ ∨ height ≤ ⌊y0⌋
  · rw [if_pos h1]
    simp only [Option.getD_some]
    constructor
    · intro hfalse
      exact absurd hfalse (by simp)
    · rintro ⟨hb, _⟩
      exfalso
      omega
  · rw [if_neg h1]
    by_cases h2 : hm (⌊y0⌋ * width + ⌊x0⌋) >
        (if tDenom (x1 - x0) (y1 - y0) < 0 then z1 else z0)
    · rw [if_pos h2]
      simp only [Option.getD_some]
      constructor
      · intro hfalse
        exact absurd hfalse (by simp)
      · rintro ⟨_, hle⟩
        exact absurd hle (not_le.mpr h2)
    · rw [if_neg h2, if_pos ⟨hx, hy⟩]
      simp only [Option.getD_some]
      constructor
      · intro _
        push_neg at h1 h2
        refine ⟨⟨?_, ?_, ?_, ?_⟩, h2⟩ <;> omega
      · intro _
        trivial

end LidarLos

namespace LidarLos

/-- Witness for C2 (amended): endpoints `(0.8, 0.5)` and `(0.2, 0.5)`
share cell `(0, 0)` and have `dx = -3/5 ≠ 0` (so the NaN exclusion
holds); the amended equivalence holds there. -/
theorem c2_samecell_witness :
    ⌊(4/5 : ℚ)⌋ = ⌊(1/5 : ℚ)⌋ ∧ ⌊(1/2 : ℚ)⌋ = ⌊(1/2 : ℚ)⌋ ∧
    ¬((1/5 : ℚ) - 4/5 = 0 ∧ (1/2 : ℚ) - 1/2 = 0 ∧ ((⌊(1/2 : ℚ)⌋ : ℚ) = 1/2)) ∧
    (los_boolean (fun _ => 5) 1 1 (4/5) (1/2) 0 (1/5) (1/2) 10 = true ↔
      ((0 ≤ ⌊(4/5 : ℚ)⌋ ∧ 0 ≤ ⌊(1/2 : ℚ)⌋ ∧ ⌊(4/5 : ℚ)⌋ < 1 ∧ ⌊(1/2 : ℚ)⌋ < 1) ∧
        (fun _ : ℤ => (5 : ℚ)) (⌊(1/2 : ℚ)⌋ * 1 + ⌊(4/5 : ℚ)⌋) ≤
          (if tDenom (1/5 - 4/5) (1/2 - 1/2) < 0 then 10 else 0))) := by
  have hfx : ⌊(4/5 : ℚ)⌋ = ⌊(1/5 : ℚ)⌋ := by
    rw [floorQ_eq (q := (4/5 : ℚ)) (z := 0) (by norm_num) (by norm_num),
      floorQ_eq (q := (1/5 : ℚ)) (z := 0) (by norm_num) (by norm_num)]
  have hnan : ¬((1/5 : ℚ) - 4/5 = 0 ∧ (1/2 : ℚ) - 1/2 = 0 ∧
      ((⌊(1/2 : ℚ)⌋ : ℚ) = 1/2)) := by
    rintro ⟨hc, -, -⟩
    norm_num at hc
  exact ⟨hfx, rfl, hnan,
    c2_samecell (fun _ => 5) 1 1 (4/5) (1/2) 0 (1/5) (1/2) 10 hfx rfl hnan⟩

/-- Counterexample to C2 as stated: endpoints `(0.8, 0.5, 0)` and
`(0.2, 0.5, 10)` floor to the same in-bounds cell whose terrain is `5`,
which exceeds `z0 = 0`, yet the traversal returns `true` (the clamp
lands at `t = 1`, comparing against `z1 = 10`, not `z0`). -/
theorem c2_counterexample :
    ⌊(4/5 : ℚ)⌋ = ⌊(1/5 : ℚ)⌋ ∧ ⌊(1/2 : ℚ)⌋ = ⌊(1/2 : ℚ)⌋ ∧
    (0 ≤ ⌊(4/5 : ℚ)⌋ ∧ 0 ≤ ⌊(1/2 : ℚ)⌋ ∧ ⌊(4/5 : ℚ)⌋ < 1 ∧ ⌊(1/2 : ℚ)⌋ < 1) ∧
    los_boolean (fun _ => 5) 1 1 (4/5) (1/2) 0 (1/5) (1/2) 10 = true ∧
    ¬((fun _ : ℤ => (5 : ℚ)) (⌊(1/2 : ℚ)⌋ * 1 + ⌊(4/5 : ℚ)⌋) ≤ 0) := by
  have hf1 : ⌊(4/5 : ℚ)⌋ = 0 := floorQ_eq (by norm_num) (by norm_num)
  have hf2 : ⌊(1/2 : ℚ)⌋ = 0 := floorQ_eq (by norm_num) (by norm_num)
  have hf3 : ⌊(1/5 : ℚ)⌋ = 0 := floorQ_eq (by norm_num) (by norm_num)
  refine ⟨by rw [hf1, hf3], rfl, by rw [hf1, hf2]; norm_num, ?_, by norm_num⟩
  norm_num [los_boolean, losCfgOf, losTMaxX0, losTMaxY0, losFuel, losLoopFuel,
    rayHeightAt, tParam, clamp01, tDenom, hf1, hf2, hf3]

end LidarLos

namespace LidarLos

/-- Claim C3: at an advancing step with `tMaxX = tMaxY` the loop steps
the Y axis, never the X axis — the strict `tMaxX < tMaxY` comparison is
false on ties, so the X axis is stepped only when it is strictly
smaller. -/
theorem c3_tie_steps_y (cfg : LosCfg) (fuel : ℕ) (x y : ℤ) (tX tY : Option ℚ)
    (hin : ¬(x < 0 ∨ y < 0 ∨ cfg.width ≤ x ∨ cfg.height ≤ y))
    (hocc : ¬(cfg.hm (y * cfg.width + x) > rayHeightAt cfg x y))
    (htar : ¬(x = cfg.endX ∧ y = cfg.endY))
    (htie : tX = tY) :
    infLt tX tY = false ∧
    losLoopFuel cfg (fuel + 1) x y tX tY =
      losLoopFuel cfg fuel x (y + cfg.stepY) tX (infAdd tY cfg.tDeltaY) := by
  have hlt : infLt tX tY = false := by
    subst htie
    cases tX with
    | none => rfl
    | some a => simp [infLt]
  refine ⟨hlt, ?_⟩
  rw [losLoopFuel, if_neg hin, if_neg hocc, if_neg htar, if_neg (by simp [hlt])]

/-- Configuration of a hand-constructed corner-tie case: `dx = dy = 1`,
integral start `(0, 0)`, both `tMax` values equal. -/
def c3cfg : LosCfg :=
  { hm := fun _ => 0
    width := 10
    height := 10
    x0 := 0
    y0 := 0
    z0 := 5
    dx := 1
    dy := 1
    dz := 0
    endX := 5
    endY := 5
    stepX := 1
    stepY := 1
    tDeltaX := some 1
    tDeltaY := some 1 }

/-- Witness for C3: in the corner-tie state `tMaxX = tMaxY = 1` at cell
`(0, 0)` the loop performs the Y step. -/
theorem c3_tie_steps_y_witness :
    ¬((0 : ℤ) < 0 ∨ (0 : ℤ) < 0 ∨ c3cfg.width ≤ 0 ∨ c3cfg.height ≤ 0) ∧
    ¬(c3cfg.hm (0 * c3cfg.width + 0) > rayHeightAt c3cfg 0 0) ∧
    ¬((0 : ℤ) = c3cfg.endX ∧ (0 : ℤ) = c3cfg.endY) ∧
    (infLt (some 1) (some 1) = false ∧
      losLoopFuel c3cfg (0 + 1) 0 0 (some 1) (some 1) =
        losLoopFuel c3cfg 0 0 (0 + c3cfg.stepY) (some 1) (infAdd (some 1) c3cfg.tDeltaY)) := by
  have h1 : ¬((0 : ℤ) < 0 ∨ (0 : ℤ) < 0 ∨ c3cfg.width ≤ 0 ∨ c3cfg.height ≤ 0) := by
    norm_num [c3cfg]
  have h2 : ¬(c3cfg.hm (0 * c3cfg.width + 0) > rayHeightAt c3cfg 0 0) := by
    norm_num [c3cfg, rayHeightAt, tParam, clamp01, tDenom]
  have h3 : ¬((0 : ℤ) = c3cfg.endX ∧ (0 : ℤ) = c3cfg.endY) := by
    norm_num [c3cfg]
  exact ⟨h1, h2, h3, c3_tie_steps_y c3cfg 0 0 0 (some 1) (some 1) h1 h2 h3 rfl⟩

end LidarLos

namespace LidarLos

/-- The incremented `grid_size` covers all samples: `n <= grid_size^2`. -/
lemma gridSize_sq_ge (n : ℤ) : n.toNat ≤ gridSize n * gridSize n := by
  unfold gridSize
  by_cases h : Nat.sqrt n.toNat * Nat.sqrt n.toNat < n.toNat
  · rw [if_pos h]
    have h1 := Nat.lt_succ_sqrt n.toNat
    simpa [Nat.succ_eq_add_one] using Nat.le_of_lt h1
  · rw [if_neg h]
    omega

/-- For at least two samples the pattern is at least `2 x 2`. -/
lemma gridSize_ge_two (n : ℤ) (h2 : 2 ≤ n) : 2 ≤ gridSize n := by
  have hsq := gridSize_sq_ge n
  have hn : 2 ≤ n.toNat := by omega
  by_contra hcon
  push_neg at hcon
  have : gridSize n * gridSize n ≤ 1 * 1 := Nat.mul_le_mul (by omega) (by omega)
  omega

end LidarLos

namespace LidarLos

lemma off_bounds (g r : ℕ) (hg : 1 ≤ g) (hr : r < g) :
    -1 ≤ ((r : ℚ) - (g : ℚ) / 2) * (2 / (g : ℚ)) ∧
      ((r : ℚ) - (g : ℚ) / 2) * (2 / (g : ℚ)) < 1 := by
  have hgq : (0 : ℚ) < g := by exact_mod_cast hg
  have hrq : (r : ℚ) < g := by exact_mod_cast hr
  have hrq0 : (0 : ℚ) ≤ r := by positivity
  have hform : ((r : ℚ) - (g : ℚ) / 2) * (2 / (g : ℚ)) = 2 * r / g - 1 := by
    field_simp
    ring
  rw [hform]
  constructor
  · have : (0 : ℚ) ≤ 2 * r / g := by positivity
    linarith
  · have hlt : 2 * (r : ℚ) / g < 2 := by
      rw [div_lt_iff₀ hgq]
      linarith
    linarith

/-- Claim C4 (amended): probe `i` sits at pattern coordinates
`(i % gridSize, i / gridSize)` mapped through
`(coord - gridSize / 2) * (2 / gridSize)`, and every lateral offset lies
in `[-1, 1)` — the `offset_range = 2` constant is spread across the
pattern width, not a `+-2` half-width. -/
theorem c4_probe_pattern (n : ℤ) (i : ℕ) (h2 : 2 ≤ n) (hi : (i : ℤ) < n) :
    offX n i = ((i % gridSize n : ℕ) - (gridSize n : ℚ) / 2) * (2 / (gridSize n : ℚ)) ∧
    offY n i = ((i / gridSize n : ℕ) - (gridSize n : ℚ) / 2) * (2 / (gridSize n : ℚ)) ∧
    -1 ≤ offX n i ∧ offX n i < 1 ∧ -1 ≤ offY n i ∧ offY n i < 1 := by
  have hg : 2 ≤ gridSize n := gridSize_ge_two n h2
  have hmod : i % gridSize n < gridSize n := Nat.mod_lt _ (by omega)
  have hitn : i < n.toNat := by omega
  have hdiv : i / gridSize n < gridSize n := by
    rw [Nat.div_lt_iff_lt_mul (by omega)]
    exact lt_of_lt_of_le hitn (gridSize_sq_ge n)
  have hx := off_bounds (gridSize n) (i % gridSize n) (by omega) hmod
  have hy := off_bounds (gridSize n) (i / gridSize n) (by omega) hdiv
  exact ⟨rfl, rfl, hx.1, hx.2, hy.1, hy.2⟩

/-- Witness for C4 (amended): probe 0 of a 9-sample pattern. -/
theorem c4_probe_pattern_witness :
    (2 : ℤ) ≤ 9 ∧ ((0 : ℕ) : ℤ) < 9 ∧
    (offX 9 0 = ((0 % gridSize 9 : ℕ) - (gridSize 9 : ℚ) / 2) * (2 / (gridSize 9 : ℚ)) ∧
      offY 9 0 = ((0 / gridSize 9 : ℕ) - (gridSize 9 : ℚ) / 2) * (2 / (gridSize 9 : ℚ)) ∧
      -1 ≤ offX 9 0 ∧ offX 9 0 < 1 ∧ -1 ≤ offY 9 0 ∧ offY 9 0 < 1) :=
  ⟨by norm_num, by norm_num, c4_probe_pattern 9 0 (by norm_num) (by norm_num)⟩

/-- Counterexample to C4 as stated: with 9 samples no probe is centered —
every X offset of the 3x3 pattern is nonzero (they are `-1`, `-1/3` or
`1/3`), so there is no "center probe plus 8 surrounding probes". -/
theorem c4_counterexample :
    offX 9 0 ≠ 0 ∧ offX 9 1 ≠ 0 ∧ offX 9 2 ≠ 0 ∧ offX 9 3 ≠ 0 ∧ offX 9 4 ≠ 0 ∧
    offX 9 5 ≠ 0 ∧ offX 9 6 ≠ 0 ∧ offX 9 7 ≠ 0 ∧ offX 9 8 ≠ 0 := by
  have hg : gridSize 9 = 3 := by
    norm_num [gridSize, show (9 : ℤ).toNat = 9 from rfl]
  refine ⟨?_, ?_, ?_, ?_, ?_, ?_, ?_, ?_, ?_⟩ <;> norm_num [offX, hg]

end LidarLos

namespace LidarLos

/-- Claim C5: with `sampleCount = 1` the sampler degenerates to a single
unperturbed traversal, cast to `{0, 1}`. -/
theorem c5_single_sample (hm : ℤ → ℚ) (width height : ℤ) (x0 y0 z0 x1 y1 z1 : ℚ) :
    los_probability hm width height x0 y0 z0 x1 y1 z1 1 =
      if los_boolean hm width height x0 y0 z0 x1 y1 z1 then 1 else 0 := by
  unfold los_probability
  rw [if_pos rfl]

/-- Claim C6: every probe applies one common lateral offset to both
endpoints — a rigid translation of the whole ray — and leaves both `z`
coordinates unchanged. -/
theorem c6_rigid_translation (n : ℤ) (i : ℕ) (x0 y0 z0 x1 y1 z1 : ℚ) :
    (probeStart n i x0 y0 z0).1 - x0 = (probeEnd n i x1 y1 z1).1 - x1 ∧
    (probeStart n i x0 y0 z0).2.1 - y0 = (probeEnd n i x1 y1 z1).2.1 - y1 ∧
    (probeStart n i x0 y0 z0).2.2 = z0 ∧ (probeEnd n i x1 y1 z1).2.2 = z1 := by
  refine ⟨?_, ?_, rfl, rfl⟩ <;> simp [probeStart, probeEnd]

/-- Claim C9: the parametric-t denominator vanishes exactly when both
deltas vanish, so whenever `dx ≠ 0` or `dy ≠ 0` the per-iteration
division is by a nonzero value; the `tMax`/`tDelta` setup divisions are
guarded, performed (`some`) exactly for a nonzero delta. -/
theorem c9_division_guard (x0 y0 x1 y1 : ℚ) :
    (tDenom (x1 - x0) (y1 - y0) = 0 ↔ x1 - x0 = 0 ∧ y1 - y0 = 0) ∧
    (losTMaxX0 x0 x1 = none ↔ x1 - x0 = 0) ∧
    (losTMaxY0 y0 y1 = none ↔ y1 - y0 = 0) := by
  refine ⟨?_, ?_, ?_⟩
  · unfold tDenom
    split_ifs with h
    · constructor
      · intro h0
        rw [h0, abs_zero] at h
        exact absurd h (not_lt.mpr (abs_nonneg _))
      · exact fun hc => hc.1
    · constructor
      · intro h0
        push_neg at h
        rw [h0, abs_zero] at h
        exact ⟨abs_eq_zero.mp (le_antisymm h (abs_nonneg _)), h0⟩
      · exact fun hc => hc.2
  · unfold losTMaxX0
    split_ifs with h
    · simp [h]
    · simp [not_not.mp h]
  · unfold losTMaxY0
    split_ifs with h
    · simp [h]
    · simp [not_not.mp h]

end LidarLos

namespace LidarLos

/-- Claim C7: for any positive sample count the sampler result is
`k / sampleCount` for some integer `0 <= k <= sampleCount`, hence lies
in `[0, 1]`. -/
theorem c7_ratio (hm : ℤ → ℚ) (width height : ℤ) (x0 y0 z0 x1 y1 z1 : ℚ)
    (n : ℤ) (hn : 1 ≤ n) :
    ∃ k : ℕ, (k : ℤ) ≤ n ∧
      los_probability hm width height x0 y0 z0 x1 y1 z1 n = (k : ℚ) / (n : ℚ) ∧
      0 ≤ los_probability hm width height x0 y0 z0 x1 y1 z1 n ∧
      los_probability hm width height x0 y0 z0 x1 y1 z1 n ≤ 1 := by
  have hq0 : (0 : ℚ) < (n : ℚ) := by exact_mod_cast lt_of_lt_of_le zero_lt_one hn
  by_cases h1 : n = 1
  · subst h1
    unfold los_probability
    rw [if_pos rfl]
    by_cases hb : los_boolean hm width height x0 y0 z0 x1 y1 z1 = true
    · refine ⟨1, by norm_num, ?_, ?_, ?_⟩ <;> simp [hb]
    · rw [Bool.not_eq_true] at hb
      refine ⟨0, by norm_num, ?_, ?_, ?_⟩ <;> simp [hb]
  · unfold los_probability
    rw [if_neg h1]
    refine ⟨((List.range n.toNat).filter fun i =>
      los_boolean hm width height
        (probeStart n i x0 y0 z0).1 (probeStart n i x0 y0 z0).2.1
        (probeStart n i x0 y0 z0).2.2
        (probeEnd n i x1 y1 z1).1 (probeEnd n i x1 y1 z1).2.1
        (probeEnd n i x1 y1 z1).2.2).length, ?_, rfl, ?_, ?_⟩
    · have hlen := List.length_filter_le (fun i =>
        los_boolean hm width height
          (probeStart n i x0 y0 z0).1 (probeStart n i x0 y0 z0).2.1
          (probeStart n i x0 y0 z0).2.2
          (probeEnd n i x1 y1 z1).1 (probeEnd n i x1 y1 z1).2.1
          (probeEnd n i x1 y1 z1).2.2) (List.range n.toNat)
      rw [List.length_range] at hlen
      omega
    · positivity
    · rw [div_le_one hq0]
      have hlen := List.length_filter_le (fun i =>
        los_boolean hm width height
          (probeStart n i x0 y0 z0).1 (probeStart n i x0 y0 z0).2.1
          (probeStart n i x0 y0 z0).2.2
          (probeEnd n i x1 y1 z1).1 (probeEnd n i x1 y1 z1).2.1
          (probeEnd n i x1 y1 z1).2.2) (List.range n.toNat)
      rw [List.length_range] at hlen
      have : ((List.range n.toNat).filter fun i =>
          los_boolean hm width height
            (probeStart n i x0 y0 z0).1 (probeStart n i x0 y0 z0).2.1
            (probeStart n i x0 y0 z0).2.2
            (probeEnd n i x1 y1 z1).1 (probeEnd n i x1 y1 z1).2.1
            (probeEnd n i x1 y1 z1).2.2).length ≤ n.toNat := hlen
      have hcast : (((List.range n.toNat).filter fun i =>
          los_boolean hm width height
            (probeStart n i x0 y0 z0).1 (probeStart n i x0 y0 z0).2.1
            (probeStart n i x0 y0 z0).2.2
            (probeEnd n i x1 y1 z1).1 (probeEnd n i x1 y1 z1).2.1
            (probeEnd n i x1 y1 z1).2.2).length : ℤ) ≤ n := by omega
      exact_mod_cast hcast

/-- Witness for C7: one sample over flat terrain gives the ratio `1/1`. -/
theorem c7_ratio_witness :
    (1 : ℤ) ≤ 1 ∧
    ∃ k : ℕ, (k : ℤ) ≤ 1 ∧
      los_probability (fun _ => 0) 1 1 0 0 0 0 0 0 1 = (k : ℚ) / ((1 : ℤ) : ℚ) ∧
      0 ≤ los_probability (fun _ => 0) 1 1 0 0 0 0 0 0 1 ∧
      los_probability (fun _ => 0) 1 1 0 0 0 0 0 0 1 ≤ 1 :=
  ⟨le_refl 1, c7_ratio (fun _ => 0) 1 1 0 0 0 0 0 0 1 (le_refl 1)⟩

end LidarLos
